import Mathlib

set_option maxHeartbeats 1000000

/-!
Verification development for the pyasdf file engine.

The definitions below shallowly embed the Python source of the repository:
`src/pyasdf/asdf.py` (the `AsdfFile` engine: open, update, write_to, the tree
setter), `src/pyasdf/schema.py` (the validator wrapper with its visited-set
cycle protection, `validate_fill_default` and `validate_remove_default`), and
`src/pyfinf/userset.py` (the `UserSet` wrapper class).

Bytes are modelled as natural numbers (one per octet), byte streams as
`List Nat`.  Fallible operations return `Except Err` values.  Where a
definition models code of the repository that is not present under `src/`
(the `constants` module, `yamlutil.dump_tree`), its doc comment says so and
follows the specification's words.
-/

abbrev Byte := Nat

/-- `constants.ASDF_MAGIC`: the ASCII bytes of the string `#ASDF ` (the
specification fixes the magic line as ASCII `#ASDF ` + `M.m.p` + newline). -/
def ASDF_MAGIC : List Byte := [35, 65, 83, 68, 70, 32]

/-- Modelled from the spec: `constants.py` is not under `src/`; the
specification says the YAML region ends at the YAML document-end marker
`...` followed by a newline, inclusive.  These are the ASCII bytes of
that marker. -/
def YAML_END_MARKER : List Byte := [46, 46, 46, 10]

/-- `constants.BLOCK_MAGIC`: the specification fixes the 4-byte block magic
as `0xd3 0x42 0x4c 0x4b`. -/
def BLOCK_MAGIC : List Byte := [211, 66, 76, 75]

/-- The 4-byte token `%YAM` that `AsdfFile._open_impl` compares the bytes
following the header line against. -/
def YAM_TOKEN : List Byte := [37, 89, 65, 77]

/-- The typed errors of the engine, one constructor per error surface the
embedded code can reach. -/
inductive Err
  | NotAsdf
  | GarbageAfterHeader
  | EndOfYamlNotFound
  | NotOpen
  | NotWritable
  | NotSeekable
  | SchemaViolation
  | AttributeError
  | KeyError
  deriving DecidableEq

/-- Greedily take leading ASCII digit bytes, returning them and the rest
(the digit-matching part of the regex in `AsdfFile._parse_header_line`). -/
def takeDigits : List Byte → List Byte × List Byte
  | [] => ([], [])
  | b :: bs =>
    if 48 ≤ b ∧ b ≤ 57 then
      let r := takeDigits bs
      (b :: r.1, r.2)
    else ([], b :: bs)

/-- ASCII digits to the natural number they denote. -/
def digitsToNat (ds : List Byte) : Nat := ds.foldl (fun a d => a * 10 + (d - 48)) 0

/-- `AsdfFile._parse_header_line` (asdf.py lines 332-344): anchored match of
`#ASDF <digits>.<digits>.<digits>` at the start of the line (trailing bytes
are ignored, as with Python `re.match`); `none` models the `ValueError`
("Does not appear to be a ASDF file"). -/
def parseHeaderLine (line : List Byte) : Option (Nat × Nat × Nat) :=
  if ASDF_MAGIC.isPrefixOf line then
    match takeDigits (line.drop ASDF_MAGIC.length) with
    | ([], _) => none
    | (ds1, r1) =>
      match r1 with
      | 46 :: r1b =>
        match takeDigits r1b with
        | ([], _) => none
        | (ds2, r2) =>
          match r2 with
          | 46 :: r2b =>
            match takeDigits r2b with
            | ([], _) => none
            | (ds3, _) => some (digitsToNat ds1, digitsToNat ds2, digitsToNat ds3)
          | _ => none
      | _ => none
  else none

/-- Index of the first occurrence of the pattern `pat` in a byte list
(the search primitive behind `read_until` / `seek_until` of generic_io). -/
def findPat (pat : List Byte) : List Byte → Option Nat
  | [] => none
  | b :: bs =>
    if pat.isPrefixOf (b :: bs) then some 0
    else (findPat pat bs).map (· + 1)

/-- `fd.read_until` for the newline pattern, with `include=True`: the first
line (newline included) and the remaining bytes; `none` models the
`ValueError` raised when no newline is found. -/
def readLine (input : List Byte) : Option (List Byte × List Byte) :=
  match findPat [10] input with
  | none => none
  | some i => some (input.take (i + 1), input.drop (i + 1))

/-- The first line of the input as `read_until` would delimit it; the whole
input when it holds no newline. -/
def firstLineOf (input : List Byte) : List Byte :=
  match readLine input with
  | none => input
  | some p => p.1

/-- Outcome of a successful open, as determined by the 4-byte token after
the header line in `AsdfFile._open_impl` (asdf.py lines 361-401). -/
inductive OpenOutcome
  | emptyFile
  | blocksOnly
  | yamlFile (region : List Byte) (hasBlocks : Bool)
  deriving DecidableEq

/-- The token dispatch of `AsdfFile._open_impl` on the bytes following the
header line: `%YAM` reads the YAML region up to and including the
end-of-YAML marker and then scans for the block magic; the block magic means
blocks with no YAML region; an empty read means an empty file; any other
token is the `IOError` "ASDF file appears to contain garbage after header". -/
def tokenDispatch (rest : List Byte) : Except Err OpenOutcome :=
  if rest.take 4 = YAM_TOKEN then
    match findPat YAML_END_MARKER rest with
    | some i =>
      Except.ok (OpenOutcome.yamlFile (rest.take (i + YAML_END_MARKER.length))
        (findPat BLOCK_MAGIC (rest.drop (i + YAML_END_MARKER.length))).isSome)
    | none => Except.error Err.EndOfYamlNotFound
  else if rest.take 4 = BLOCK_MAGIC then
    Except.ok OpenOutcome.blocksOnly
  else if rest.take 4 ≠ [] then
    Except.error Err.GarbageAfterHeader
  else
    Except.ok OpenOutcome.emptyFile

/-- The header stage of `AsdfFile._open_impl`: read the first line (a failed
`read_until` surfaces as `NotAsdf`), parse the magic/version line (a failed
match surfaces as `NotAsdf`), then dispatch on the next 4-byte token. -/
def openAsdf (input : List Byte) : Except Err OpenOutcome :=
  match readLine input with
  | none => Except.error Err.NotAsdf
  | some p =>
    match parseHeaderLine p.1 with
    | none => Except.error Err.NotAsdf
    | some _ => tokenDispatch p.2

/-- The bytes `What? This aint no ASDF file` (with the apostrophe of the
original test string at position 14, byte 39). -/
def NOT_ASDF_INPUT : List Byte :=
  [87, 104, 97, 116, 63, 32, 84, 104, 105, 115, 32, 97, 105, 110, 39, 116,
   32, 110, 111, 32, 65, 83, 68, 70, 32, 102, 105, 108, 101]

theorem findPat_isPrefix {pat : List Byte} :
    ∀ {l : List Byte} {i : Nat}, findPat pat l = some i → pat.isPrefixOf (l.drop i) = true := by
  intro l
  induction l with
  | nil => intro i h; simp [findPat] at h
  | cons b bs ih =>
    intro i h
    rw [findPat] at h
    by_cases hp : pat.isPrefixOf (b :: bs) = true
    · simp [hp] at h
      subst h
      simpa using hp
    · simp [hp] at h
      obtain ⟨j, hj, rfl⟩ := h
      simpa using ih hj

theorem marker_suffix_of_findPat {l : List Byte} {i : Nat}
    (h : findPat YAML_END_MARKER l = some i) :
    YAML_END_MARKER.IsSuffix (l.take (i + YAML_END_MARKER.length)) := by
  have hpre : YAML_END_MARKER.isPrefixOf (l.drop i) = true := findPat_isPrefix h
  have hpre2 : YAML_END_MARKER <+: l.drop i := by
    exact List.isPrefixOf_iff_prefix.mp hpre
  have htake : (l.drop i).take YAML_END_MARKER.length = YAML_END_MARKER := by
    have := List.prefix_iff_eq_take.mp hpre2
    exact this.symm
  refine ⟨l.take i, ?_⟩
  rw [List.take_add, htake]

/-- C5: every input whose first line does not match the form
`#ASDF <major>.<minor>.<micro>` makes open fail with `NotAsdf` — either the
line never terminates and `read_until` raises, or the anchored regex match
of `_parse_header_line` fails; both surface as `NotAsdf`. -/
theorem open_rejects_non_asdf_header (input : List Byte)
    (h : parseHeaderLine (firstLineOf input) = none) :
    openAsdf input = Except.error Err.NotAsdf := by
  unfold openAsdf
  unfold firstLineOf at h
  cases hr : readLine input with
  | none => rfl
  | some p =>
    rw [hr] at h
    simp [h]

/-- Witness for C5 at the concrete test input of the spec scenario S1. -/
theorem open_rejects_non_asdf_header_witness :
    parseHeaderLine (firstLineOf NOT_ASDF_INPUT) = none ∧
    openAsdf NOT_ASDF_INPUT = Except.error Err.NotAsdf :=
  ⟨by decide, open_rejects_non_asdf_header NOT_ASDF_INPUT (by decide)⟩

/-- C4: after the magic/version line, the 4-byte token fully determines the
outcome of open: an empty read yields the empty file (empty tree, zero
blocks); `%YAM` makes open read the YAML region up to and including the
end-of-YAML marker (and scan for blocks after it); the block magic yields an
open with no YAML region; any other non-empty token fails with
`GarbageAfterHeader`. -/
theorem open_token_determines_outcome (rest : List Byte) :
    (rest = [] → tokenDispatch rest = Except.ok OpenOutcome.emptyFile) ∧
    (rest.take 4 = YAM_TOKEN →
      ∀ i, findPat YAML_END_MARKER rest = some i →
        tokenDispatch rest =
          Except.ok (OpenOutcome.yamlFile (rest.take (i + YAML_END_MARKER.length))
            (findPat BLOCK_MAGIC (rest.drop (i + YAML_END_MARKER.length))).isSome) ∧
        YAML_END_MARKER.IsSuffix (rest.take (i + YAML_END_MARKER.length))) ∧
    (rest.take 4 = BLOCK_MAGIC → tokenDispatch rest = Except.ok OpenOutcome.blocksOnly) ∧
    (rest ≠ [] → rest.take 4 ≠ YAM_TOKEN → rest.take 4 ≠ BLOCK_MAGIC →
      tokenDispatch rest = Except.error Err.GarbageAfterHeader) := by
  refine ⟨?_, ?_, ?_, ?_⟩
  · intro h; subst h; rfl
  · intro hy i hi
    refine ⟨?_, marker_suffix_of_findPat hi⟩
    unfold tokenDispatch
    simp [hy, hi]
  · intro hb
    have hy : ¬ rest.take 4 = YAM_TOKEN := by
      rw [hb]; decide
    unfold tokenDispatch
    rw [if_neg hy, if_pos hb]
  · intro hne hy hb
    have hnil : ¬ rest.take 4 = [] := by
      cases rest with
      | nil => exact absurd rfl hne
      | cons a l => simp
    unfold tokenDispatch
    rw [if_neg hy, if_neg hb, if_pos hnil]

/-- Witness for C4: the empty token and the concrete garbage token `FOO`
from the low-level test suite. -/
theorem open_token_determines_outcome_witness :
    tokenDispatch [] = Except.ok OpenOutcome.emptyFile ∧
    tokenDispatch [70, 79, 79] = Except.error Err.GarbageAfterHeader :=
  ⟨(open_token_determines_outcome []).1 rfl,
   (open_token_determines_outcome [70, 79, 79]).2.2.2 (by decide) (by decide) (by decide)⟩

/-- A generic_io stream as the update/write paths see it: its writability
and seekability flags. -/
structure GStream where
  writable : Bool
  seekable : Bool
  deriving DecidableEq

/-- The three array storage classes of the block manager. -/
inductive Storage
  | internal
  | external
  | inline
  deriving DecidableEq

/-- The observable write-phase actions of `AsdfFile.update` and
`AsdfFile.write_to`: a serial write of header, YAML and blocks
(`_serial_write`), a random-access in-place write (`_random_write`), the
update-layout planning step (`block.calculate_updated_layout`), and a
truncation of the stream at the current position. -/
inductive WriteStep
  | serialWrite (allStorage : Option Storage)
  | randomWrite (allStorage : Option Storage)
  | planLayout
  | truncateAtTell
  deriving DecidableEq

/-- The write actions `AsdfFile.write_to` performs on its destination: a
single serial write with the requested storage override. -/
def write_to_steps (allStorage : Option Storage) : List WriteStep :=
  [WriteStep.serialWrite allStorage]

/-- The control flow of `AsdfFile.update` (asdf.py lines 543-610): no
associated file raises ("no associated file", `NotOpen`); a read-only file
raises (`NotWritable`); with `all_array_storage == 'external'` the method
degrades to `write_to` on the same stream followed by a truncate; otherwise
a non-seekable file raises (`NotSeekable`); then either a serial rewrite
plus truncate (no reused block offsets, or the layout planner returned
false) or the in-place random-access write.  The booleans stand for the
outcomes of `blocks.has_blocks_with_offset()` and
`block.calculate_updated_layout`. -/
def update_steps (fd : Option GStream) (allStorage : Option Storage)
    (hasBlocksWithOffset : Bool) (layoutOk : Bool) : Except Err (List WriteStep) :=
  match fd with
  | none => Except.error Err.NotOpen
  | some s =>
    if s.writable = false then Except.error Err.NotWritable
    else if allStorage = some Storage.external then
      Except.ok (write_to_steps (some Storage.external) ++ [WriteStep.truncateAtTell])
    else if s.seekable = false then Except.error Err.NotSeekable
    else if hasBlocksWithOffset = false then
      Except.ok [WriteStep.serialWrite allStorage, WriteStep.truncateAtTell]
    else if layoutOk = false then
      Except.ok [WriteStep.planLayout, WriteStep.serialWrite allStorage,
        WriteStep.truncateAtTell]
    else
      Except.ok [WriteStep.planLayout, WriteStep.randomWrite allStorage]

theorem tokenDispatch_no_notseekable (rest : List Byte) :
    tokenDispatch rest ≠ Except.error Err.NotSeekable := by
  unfold tokenDispatch
  by_cases h1 : rest.take 4 = YAM_TOKEN
  · rw [if_pos h1]
    cases findPat YAML_END_MARKER rest with
    | none => intro h; cases h
    | some i => intro h; cases h
  · rw [if_neg h1]
    by_cases h2 : rest.take 4 = BLOCK_MAGIC
    · rw [if_pos h2]; intro h; cases h
    · rw [if_neg h2]
      by_cases h3 : rest.take 4 ≠ []
      · rw [if_pos h3]; intro h; cases h
      · rw [if_neg h3]; intro h; cases h

/-- C2 (amended): update fails with `NotOpen` when the engine has no
associated file and with `NotWritable` on a read-only stream; it fails with
`NotSeekable` on a non-seekable stream whenever `all_array_storage` is not
`external` (with `external` it degrades to `write_to` + truncate before the
seekability check); and open never surfaces `NotSeekable`. -/
theorem update_requires_open_writable_seekable (s : GStream) (st : Option Storage)
    (ho lo : Bool) (input : List Byte) :
    (update_steps none st ho lo = Except.error Err.NotOpen) ∧
    (s.writable = false → update_steps (some s) st ho lo = Except.error Err.NotWritable) ∧
    (s.writable = true → s.seekable = false → st ≠ some Storage.external →
      update_steps (some s) st ho lo = Except.error Err.NotSeekable) ∧
    (openAsdf input ≠ Except.error Err.NotSeekable) := by
  refine ⟨rfl, ?_, ?_, ?_⟩
  · intro hw
    simp only [update_steps]
    rw [if_pos hw]
  · intro hw hs hext
    have hw' : ¬ s.writable = false := by rw [hw]; decide
    have hext' : ¬ st = some Storage.external := hext
    simp only [update_steps]
    rw [if_neg hw', if_neg hext', if_pos hs]
  · intro hcon
    unfold openAsdf at hcon
    split at hcon
    · simp at hcon
    · split at hcon
      · simp at hcon
      · exact tokenDispatch_no_notseekable _ hcon

/-- Witness for C2 at concrete streams: a read-only stream and a writable
non-seekable stream with no storage override. -/
theorem update_requires_open_writable_seekable_witness :
    update_steps (some (GStream.mk false true)) none false false =
      Except.error Err.NotWritable ∧
    update_steps (some (GStream.mk true false)) none false false =
      Except.error Err.NotSeekable :=
  ⟨(update_requires_open_writable_seekable (GStream.mk false true) none false false []).2.1 rfl,
   (update_requires_open_writable_seekable (GStream.mk true false) none false false []).2.2.1
     rfl rfl (fun h => Option.noConfusion h)⟩

/-- C2 counterexample: a writable, non-seekable stream updated with
`all_array_storage = 'external'` does not fail with `NotSeekable` — the
external branch of `update` runs before the seekability check. -/
theorem update_notseekable_claim_false :
    (GStream.mk true false).seekable = false ∧
    update_steps (some (GStream.mk true false)) (some Storage.external) false false ≠
      Except.error Err.NotSeekable := by
  refine ⟨rfl, ?_⟩
  intro h
  rw [show update_steps (some (GStream.mk true false)) (some Storage.external) false false =
    Except.ok (write_to_steps (some Storage.external) ++ [WriteStep.truncateAtTell])
    from rfl] at h
  exact Except.noConfusion h

/-- C3: on an open, writable engine, `update` with
`all_array_storage = 'external'` performs exactly the write actions of
`write_to` on the same stream with that storage class, followed by a
truncate at the position reached, and its action list contains no in-place
planning step. -/
theorem update_external_degrades_to_write_to (s : GStream) (ho lo : Bool)
    (hw : s.writable = true) :
    update_steps (some s) (some Storage.external) ho lo =
      Except.ok (write_to_steps (some Storage.external) ++ [WriteStep.truncateAtTell]) ∧
    ∀ steps, update_steps (some s) (some Storage.external) ho lo = Except.ok steps →
      WriteStep.planLayout ∉ steps := by
  have hw' : ¬ s.writable = false := by rw [hw]; decide
  have hmain : update_steps (some s) (some Storage.external) ho lo =
      Except.ok (write_to_steps (some Storage.external) ++ [WriteStep.truncateAtTell]) := by
    simp only [update_steps]
    rw [if_neg hw']
    simp
  refine ⟨hmain, ?_⟩
  intro steps hsteps
  rw [hmain] at hsteps
  cases hsteps
  decide

/-- Witness for C3 at a concrete writable, seekable stream. -/
theorem update_external_degrades_to_write_to_witness :
    update_steps (some (GStream.mk true true)) (some Storage.external) false false =
      Except.ok (write_to_steps (some Storage.external) ++ [WriteStep.truncateAtTell]) :=
  (update_external_degrades_to_write_to (GStream.mk true true) false false rfl).1

/-- Scalar YAML values, as the validator's default-handling code sees them;
`null` doubles as Python `None` (YAML null loads as `None`). -/
inductive JVal
  | null
  | boolv (b : Bool)
  | intv (n : Int)
  | strv (s : String)
  deriving DecidableEq

/-- A YAML mapping / Python dict as an insertion-ordered association list;
the string keys of the Python dicts are modelled by numeric identifiers. -/
abbrev Key := Nat

abbrev Obj := List (Key × JVal)

/-- The engine state the claims about `write_to` and the tree setter need:
the associated stream (`_fd`, nullable) and the stored tree (`_tree`). -/
structure Engine where
  fd : Option GStream
  tree : Obj
  deriving DecidableEq

/-- The tree setter of `AsdfFile` (asdf.py lines 212-218): the candidate
tree is validated first (`schema.validate` raises `ValidationError` on a
schema violation) and only then stored into `_tree`.  The validation
outcome, computed by the external jsonschema collaborator, is the
`validateT` parameter. -/
def tree_set (validateT : Obj → Bool) (e : Engine) (t : Obj) : Engine × Option Err :=
  if validateT t then ({ e with tree := t }, none)
  else (e, some Err.SchemaViolation)

/-- C6: assigning to the tree property validates first; when validation
fails the stored tree — indeed the whole engine state — is exactly what it
was before the assignment, and the schema violation is reported. -/
theorem tree_setter_no_mutation_on_failure (validateT : Obj → Bool) (e : Engine)
    (t : Obj) (h : validateT t = false) :
    tree_set validateT e t = (e, some Err.SchemaViolation) := by
  unfold tree_set
  rw [h]
  rfl

/-- Witness for C6 at a concrete engine and an always-rejecting validator. -/
theorem tree_setter_no_mutation_on_failure_witness :
    tree_set (fun _ => false) (Engine.mk none []) [(0, JVal.null)] =
      (Engine.mk none [], some Err.SchemaViolation) :=
  tree_setter_no_mutation_on_failure (fun _ => false) (Engine.mk none [])
    [(0, JVal.null)] rfl

/-- `AsdfFile.write_to` (asdf.py lines 612-681) as a wrapper around its
write body: `original_fd = self._fd` is saved, the body (get_file,
`_pre_write`, `_serial_write`, `_post_write`) runs with `_fd` pointing at
the destination and may mutate the engine and fail, and the outer
try/finally restores `_fd` to the saved value in every case. -/
def write_to_model (body : Engine → Engine × Option Err) (dst : GStream)
    (e : Engine) : Engine × Option Err :=
  let original_fd := e.fd
  let r := body { e with fd := some dst }
  ({ r.1 with fd := original_fd }, r.2)

/-- C7: for every engine, destination and write body — succeeding or
failing at any step — `write_to` leaves the engine's associated stream
field equal to its value before the call. -/
theorem write_to_restores_fd (body : Engine → Engine × Option Err) (dst : GStream)
    (e : Engine) :
    (write_to_model body dst e).1.fd = e.fd := rfl

/-- A `UserSet` instance (userset.py): Python objects carry whatever
attributes have been assigned to them, so the `data` attribute is an
`Option`; `none` means the attribute was never set and any access to it
raises `AttributeError`. -/
structure UserSet where
  data : Option (List Nat)
  deriving DecidableEq

/-- Constructing `UserSet()` through the class: the only initializer in the
class body is spelled `__init___` (three trailing underscores, userset.py
line 8), which is an ordinary method as far as Python is concerned, so the
default `object.__init__` runs instead and the `data` attribute is never
assigned. -/
def userSetNew : UserSet := { data := none }

def us_len (s : UserSet) : Except Err Nat :=
  match s.data with
  | none => Except.error Err.AttributeError
  | some d => Except.ok d.length

def us_contains (s : UserSet) (x : Nat) : Except Err Bool :=
  match s.data with
  | none => Except.error Err.AttributeError
  | some d => Except.ok (d.contains x)

def us_isdisjoint (s : UserSet) (t : List Nat) : Except Err Bool :=
  match s.data with
  | none => Except.error Err.AttributeError
  | some d => Except.ok (d.all (fun x => !t.contains x))

def us_issubset (s : UserSet) (t : List Nat) : Except Err Bool :=
  match s.data with
  | none => Except.error Err.AttributeError
  | some d => Except.ok (d.all (fun x => t.contains x))

def us_issuperset (s : UserSet) (t : List Nat) : Except Err Bool :=
  match s.data with
  | none => Except.error Err.AttributeError
  | some d => Except.ok (t.all (fun x => d.contains x))

def us_union (s : UserSet) (t : List Nat) : Except Err (List Nat) :=
  match s.data with
  | none => Except.error Err.AttributeError
  | some d => Except.ok (d ++ t.filter (fun x => !d.contains x))

def us_intersection (s : UserSet) (t : List Nat) : Except Err (List Nat) :=
  match s.data with
  | none => Except.error Err.AttributeError
  | some d => Except.ok (d.filter (fun x => t.contains x))

def us_difference (s : UserSet) (t : List Nat) : Except Err (List Nat) :=
  match s.data with
  | none => Except.error Err.AttributeError
  | some d => Except.ok (d.filter (fun x => !t.contains x))

def us_symmetric_difference (s : UserSet) (t : List Nat) : Except Err (List Nat) :=
  match s.data with
  | none => Except.error Err.AttributeError
  | some d =>
    Except.ok (d.filter (fun x => !t.contains x) ++ t.filter (fun x => !d.contains x))

def us_copy (s : UserSet) : Except Err (List Nat) :=
  match s.data with
  | none => Except.error Err.AttributeError
  | some d => Except.ok d

def us_update (s : UserSet) (t : List Nat) : Except Err UserSet :=
  match s.data with
  | none => Except.error Err.AttributeError
  | some d => Except.ok { data := some (d ++ t.filter (fun x => !d.contains x)) }

def us_add (s : UserSet) (x : Nat) : Except Err UserSet :=
  match s.data with
  | none => Except.error Err.AttributeError
  | some d => Except.ok { data := some (if d.contains x then d else d ++ [x]) }

def us_remove (s : UserSet) (x : Nat) : Except Err UserSet :=
  match s.data with
  | none => Except.error Err.AttributeError
  | some d =>
    if d.contains x then Except.ok { data := some (d.erase x) }
    else Except.error Err.KeyError

def us_discard (s : UserSet) (x : Nat) : Except Err UserSet :=
  match s.data with
  | none => Except.error Err.AttributeError
  | some d => Except.ok { data := some (d.erase x) }

def us_pop (s : UserSet) : Except Err (Nat × UserSet) :=
  match s.data with
  | none => Except.error Err.AttributeError
  | some [] => Except.error Err.KeyError
  | some (x :: d) => Except.ok (x, { data := some d })

def us_clear (s : UserSet) : Except Err UserSet :=
  match s.data with
  | none => Except.error Err.AttributeError
  | some _ => Except.ok { data := some [] }

/-- C9: an instance built by the class constructor lacks the `data`
attribute (the misspelled `__init___` never runs), so every operation of
the wrapper — len, membership, the comparisons, the algebraic operations,
the mutators — raises `AttributeError` instead of behaving as a set. -/
theorem userset_constructor_never_initializes :
    userSetNew.data = none ∧
    us_len userSetNew = Except.error Err.AttributeError ∧
    us_contains userSetNew 0 = Except.error Err.AttributeError ∧
    us_isdisjoint userSetNew [] = Except.error Err.AttributeError ∧
    us_issubset userSetNew [] = Except.error Err.AttributeError ∧
    us_issuperset userSetNew [] = Except.error Err.AttributeError ∧
    us_union userSetNew [] = Except.error Err.AttributeError ∧
    us_intersection userSetNew [] = Except.error Err.AttributeError ∧
    us_difference userSetNew [] = Except.error Err.AttributeError ∧
    us_symmetric_difference userSetNew [] = Except.error Err.AttributeError ∧
    us_copy userSetNew = Except.error Err.AttributeError ∧
    us_update userSetNew [1] = Except.error Err.AttributeError ∧
    us_add userSetNew 1 = Except.error Err.AttributeError ∧
    us_remove userSetNew 1 = Except.error Err.AttributeError ∧
    us_discard userSetNew 1 = Except.error Err.AttributeError ∧
    us_pop userSetNew = Except.error Err.AttributeError ∧
    us_clear userSetNew = Except.error Err.AttributeError :=
  ⟨rfl, rfl, rfl, rfl, rfl, rfl, rfl, rfl, rfl, rfl, rfl, rfl, rfl, rfl, rfl, rfl, rfl⟩

/-- A node of the tree as `treeutil.iter_tree` enumerates it in
`AsdfFile.update`: mappings, sequences, scalars and array references.  The
storage class recorded on an `ndarrayNode` stands for
`self.blocks[node].array_storage`, the storage class of the block the block
manager associates with the array (the block manager itself is not under
`src/`). -/
inductive TreeNode
  | scalar
  | ndarrayNode (storage : Storage)
  | mapNode (children : List TreeNode)
  | seqNode (children : List TreeNode)

mutual

def arrayRefCount : TreeNode → Nat
  | TreeNode.scalar => 0
  | TreeNode.ndarrayNode st => if st = Storage.internal then 1 else 0
  | TreeNode.mapNode cs => arrayRefCountList cs
  | TreeNode.seqNode cs => arrayRefCountList cs

def arrayRefCountList : List TreeNode → Nat
  | [] => 0
  | c :: cs => arrayRefCount c + arrayRefCountList cs

end

/-- `AsdfFile._write_tree` (asdf.py lines 450-461) serializing into an
in-memory buffer with `pad_blocks=False`, as the update path does: the
magic bytes, the version string, a newline, and — when the tree is
non-empty — the YAML document followed by the end-of-YAML marker.
`yamlDoc` stands for the bytes `yamlutil.dump_tree` produces for the
document itself; modelled from the spec ("On write, emits the magic/version
line, the YAML document (if tree is non-empty), and the YAML end-marker")
since `yamlutil.py` is not under `src/`. -/
def write_tree_bytes (versionBytes yamlDoc : List Byte) (root : List TreeNode) :
    List Byte :=
  ASDF_MAGIC ++ versionBytes ++ [10] ++
    (if root.isEmpty then [] else yamlDoc ++ YAML_END_MARKER)

/-- The header/YAML size budget `serialized_tree_size` computed by
`AsdfFile.update` before greedy packing (asdf.py lines 576-595): the number
of bytes `_write_tree` wrote into the in-memory buffer
(`tree_serialized.tell()`) plus `MAX_BLOCKS_DIGITS` for every occurrence in
the tree of an array reference whose block storage is internal.
`maxBlocksDigits` stands for `constants.MAX_BLOCKS_DIGITS` (`constants.py`
is not under `src/`; the spec leaves the constant symbolic). -/
def serialized_tree_size (maxBlocksDigits : Nat) (versionBytes yamlDoc : List Byte)
    (root : List TreeNode) : Nat :=
  (write_tree_bytes versionBytes yamlDoc root).length +
    maxBlocksDigits * arrayRefCountList root

/-- The budget exactly as the claim states it (for the refinement
comparison): the byte length of the serialized YAML region (which per the
data model includes the end-of-YAML marker) plus R times the maximum index
digit count plus the end-marker size. -/
def claimed_header_budget (maxBlocksDigits : Nat) (yamlDoc : List Byte)
    (root : List TreeNode) : Nat :=
  (yamlDoc ++ YAML_END_MARKER).length + maxBlocksDigits * arrayRefCountList root +
    YAML_END_MARKER.length

/-- C1 counterexample: for the version string `0.1.0`, a one-byte YAML
document and a tree holding one internal array reference, the budget the
code computes differs from the claim's formula (22 versus 14): the code
includes the magic/version line and adds no separate end-marker term. -/
theorem update_budget_claim_false :
    serialized_tree_size 5 [48, 46, 49, 46, 48] [102]
        [TreeNode.ndarrayNode Storage.internal] ≠
      claimed_header_budget 5 [102] [TreeNode.ndarrayNode Storage.internal] := by
  decide

/-- C1 (amended): for a non-empty tree, the header/YAML size budget
computed before greedy packing equals the byte length of the whole
serialized buffer — the magic/version line plus the YAML document plus the
end-of-YAML marker — plus R times MAX_BLOCKS_DIGITS, where R counts the
occurrences in the tree of array references with internal block storage;
no end-marker size is added on top of the serialized bytes. -/
theorem update_budget_formula (maxBlocksDigits : Nat)
    (versionBytes yamlDoc : List Byte) (root : List TreeNode)
    (hne : root ≠ []) :
    serialized_tree_size maxBlocksDigits versionBytes yamlDoc root =
      (ASDF_MAGIC ++ versionBytes ++ [10]).length +
        (yamlDoc ++ YAML_END_MARKER).length +
        maxBlocksDigits * arrayRefCountList root := by
  cases root with
  | nil => exact absurd rfl hne
  | cons a l =>
    simp only [serialized_tree_size, write_tree_bytes, List.isEmpty_cons,
      Bool.false_eq_true, if_false, List.length_append]
    try omega

/-- Witness for C1 at the concrete counterexample input. -/
theorem update_budget_formula_witness :
    serialized_tree_size 5 [48, 46, 49, 46, 48] [102]
        [TreeNode.ndarrayNode Storage.internal] =
      (ASDF_MAGIC ++ [48, 46, 49, 46, 48] ++ [10]).length +
        ([102] ++ YAML_END_MARKER).length +
        5 * arrayRefCountList [TreeNode.ndarrayNode Storage.internal] :=
  update_budget_formula 5 [48, 46, 49, 46, 48] [102]
    [TreeNode.ndarrayNode Storage.internal] (List.cons_ne_nil _ _)

/-- Lookup of a key in a Python dict modelled as an association list
(first binding wins). -/
def plookup (p : Key) : Obj → Option JVal
  | [] => none
  | kv :: rest => if kv.1 = p then some kv.2 else plookup p rest

/-- Python `del instance[property]`: drop the binding of the key. -/
def delKey : Obj → Key → Obj
  | [], _ => []
  | kv :: rest, p => if kv.1 = p then delKey rest p else kv :: delKey rest p

/-- Python `dict.setdefault(p, d)`: insert `p ↦ d` (at the end, preserving
insertion order) only when `p` is absent. -/
def setdefault (i : Obj) (p : Key) (d : JVal) : Obj :=
  match plookup p i with
  | some _ => i
  | none => i ++ [(p, d)]

/-- The subschemas of a `properties` map, reduced to what the default
handlers read from them: for each property, whether the subschema has a
`default` key and, if so, its value (`some JVal.null` is a present null
default — distinct from an absent one). -/
abbrev Props := List (Key × Option JVal)

/-- One property step of `validate_fill_default` (schema.py lines 145-155):
`if "default" in subschema: instance.setdefault(property, subschema["default"])`. -/
def fill_default_step (i : Obj) (pr : Key × Option JVal) : Obj :=
  match pr.2 with
  | some d => setdefault i pr.1 d
  | none => i

/-- The per-property loop of `validate_fill_default` over an object
instance. -/
def validate_fill_default (props : Props) (inst : Obj) : Obj :=
  props.foldl fill_default_step inst

/-- One property step of `validate_remove_default` (schema.py lines
164-175): `if subschema.get("default", None) is not None:` then
`if instance.get(property, None) == subschema["default"]: del
instance[property]` — `JVal.null` plays Python `None`, and a missing
instance value reads as `None` through `.get(property, None)`. -/
def remove_default_step (i : Obj) (pr : Key × Option JVal) : Obj :=
  match pr.2 with
  | some d =>
    if d ≠ JVal.null ∧ (plookup pr.1 i).getD JVal.null = d then delKey i pr.1 else i
  | none => i

/-- The per-property loop of `validate_remove_default` over an object
instance. -/
def validate_remove_default (props : Props) (inst : Obj) : Obj :=
  props.foldl remove_default_step inst

theorem plookup_append (p : Key) (i j : Obj) :
    plookup p (i ++ j) = (plookup p i).or (plookup p j) := by
  induction i with
  | nil => simp [plookup, Option.or]
  | cons kv rest ih =>
    by_cases h : kv.1 = p
    · simp [plookup, h, Option.or]
    · simp [plookup, h, ih]

theorem plookup_delKey_ne {q p : Key} (h : q ≠ p) (i : Obj) :
    plookup q (delKey i p) = plookup q i := by
  induction i with
  | nil => rfl
  | cons kv rest ih =>
    by_cases hk : kv.1 = p
    · have hq : ¬ kv.1 = q := by rw [hk]; exact fun hh => h hh.symm
      simp [delKey, hk, plookup, hq, ih, Ne.symm h]
    · by_cases hq : kv.1 = q
      · simp [delKey, hk, plookup, hq, h]
      · simp [delKey, hk, plookup, hq, ih, h]

theorem plookup_setdefault_preserved {p : Key} {i : Obj} {v : JVal}
    (h : plookup p i = some v) (q : Key) (d : JVal) :
    plookup p (setdefault i q d) = some v := by
  unfold setdefault
  cases hq : plookup q i with
  | some w => exact h
  | none => rw [plookup_append, h]; rfl

theorem plookup_setdefault_ne {p q : Key} (h : p ≠ q) (i : Obj) (d : JVal) :
    plookup p (setdefault i q d) = plookup p i := by
  unfold setdefault
  cases hq : plookup q i with
  | some w => rfl
  | none =>
    rw [plookup_append]
    cases hp : plookup p i with
    | some w => rfl
    | none => simp [plookup, Option.or, Ne.symm h]

theorem plookup_setdefault_insert {p : Key} {i : Obj}
    (h : plookup p i = none) (d : JVal) :
    plookup p (setdefault i p d) = some d := by
  simp only [setdefault, h]
  rw [plookup_append, h]
  simp [plookup, Option.or]

theorem fill_preserves {p : Key} {v : JVal} :
    ∀ (props : Props) (i : Obj), plookup p i = some v →
      plookup p (validate_fill_default props i) = some v := by
  intro props
  induction props with
  | nil => intro i h; exact h
  | cons pr rest ih =>
    intro i h
    rw [validate_fill_default, List.foldl_cons]
    apply ih
    unfold fill_default_step
    cases pr.2 with
    | none => exact h
    | some d => exact plookup_setdefault_preserved h pr.1 d

theorem fill_inserts_missing {p : Key} {d : JVal} :
    ∀ (props : Props) (i : Obj),
      (props.map Prod.fst).Nodup → (p, some d) ∈ props → plookup p i = none →
      plookup p (validate_fill_default props i) = some d := by
  intro props
  induction props with
  | nil => intro i _ hmem _; cases hmem
  | cons pr rest ih =>
    intro i hnd hmem hmiss
    rw [List.map_cons, List.nodup_cons] at hnd
    rw [validate_fill_default, List.foldl_cons]
    rcases List.mem_cons.mp hmem with heq | hmem2
    · subst heq
      have hstep : plookup p (fill_default_step i (p, some d)) = some d := by
        unfold fill_default_step
        exact plookup_setdefault_insert hmiss d
      exact fill_preserves rest _ hstep
    · have hpkeys : p ∈ rest.map Prod.fst :=
        List.mem_map_of_mem Prod.fst hmem2
      have hne : pr.1 ≠ p := fun hh => hnd.1 (hh ▸ hpkeys)
      have hstep : plookup p (fill_default_step i pr) = none := by
        unfold fill_default_step
        cases pr.2 with
        | none => exact hmiss
        | some d2 => rw [plookup_setdefault_ne (Ne.symm hne)]; exact hmiss
      exact ih _ hnd.2 hmem2 hstep

theorem remove_step_ne {p : Key} (i : Obj) (pr : Key × Option JVal)
    (h : pr.1 ≠ p) : plookup p (remove_default_step i pr) = plookup p i := by
  cases hd : pr.2 with
  | none => simp only [remove_default_step, hd]
  | some d =>
    simp only [remove_default_step, hd]
    by_cases hc : d ≠ JVal.null ∧ (plookup pr.1 i).getD JVal.null = d
    · rw [if_pos hc]
      exact plookup_delKey_ne (Ne.symm h) i
    · rw [if_neg hc]

theorem remove_untouched {p : Key} :
    ∀ (props : Props) (i : Obj), p ∉ props.map Prod.fst →
      plookup p (validate_remove_default props i) = plookup p i := by
  intro props
  induction props with
  | nil => intro i _; rfl
  | cons pr rest ih =>
    intro i hnot
    rw [List.map_cons, List.mem_cons] at hnot
    push_neg at hnot
    rw [validate_remove_default, List.foldl_cons]
    have htail : plookup p (validate_remove_default rest (remove_default_step i pr)) =
        plookup p (remove_default_step i pr) := ih _ hnot.2
    rw [show List.foldl remove_default_step (remove_default_step i pr) rest =
      validate_remove_default rest (remove_default_step i pr) from rfl]
    rw [htail, remove_step_ne i pr (fun hh => hnot.1 hh.symm)]

theorem remove_keeps_null_default {p : Key} :
    ∀ (props : Props) (i : Obj), (props.map Prod.fst).Nodup →
      (p, some JVal.null) ∈ props →
      plookup p (validate_remove_default props i) = plookup p i := by
  intro props
  induction props with
  | nil => intro i _ hmem; cases hmem
  | cons pr rest ih =>
    intro i hnd hmem
    rw [List.map_cons, List.nodup_cons] at hnd
    rw [validate_remove_default, List.foldl_cons]
    rcases List.mem_cons.mp hmem with heq | hmem2
    · subst heq
      have hstep : remove_default_step i (p, some JVal.null) = i := by
        unfold remove_default_step
        simp
      rw [hstep]
      exact remove_untouched rest i (by simpa using hnd.1)
    · have hpkeys : p ∈ rest.map Prod.fst :=
        List.mem_map_of_mem Prod.fst hmem2
      have hne : pr.1 ≠ p := fun hh => hnd.1 (hh ▸ hpkeys)
      have htail : plookup p (validate_remove_default rest (remove_default_step i pr)) =
          plookup p (remove_default_step i pr) := ih _ hnd.2 hmem2
      rw [show List.foldl remove_default_step (remove_default_step i pr) rest =
        validate_remove_default rest (remove_default_step i pr) from rfl]
      rw [htail, remove_step_ne i pr hne]

theorem remove_only_nonnull_equal {q : Key} {v : JVal} :
    ∀ (props : Props) (i : Obj),
      plookup q i = some v →
      plookup q (validate_remove_default props i) = none →
      ∃ pr ∈ props, pr.1 = q ∧ pr.2 = some v ∧ v ≠ JVal.null := by
  intro props
  induction props with
  | nil =>
    intro i hs hn
    rw [validate_remove_default, List.foldl_nil] at hn
    rw [hs] at hn
    cases hn
  | cons pr rest ih =>
    intro i hs hn
    rw [validate_remove_default, List.foldl_cons] at hn
    by_cases hq : pr.1 = q
    · cases hd : pr.2 with
      | none =>
        have hid : remove_default_step i pr = i := by
          simp only [remove_default_step, hd]
        rw [hid] at hn
        obtain ⟨pr2, hmem, hrest⟩ := ih i hs hn
        exact ⟨pr2, List.mem_cons_of_mem pr hmem, hrest⟩
      | some d =>
        by_cases hc : d ≠ JVal.null ∧ (plookup pr.1 i).getD JVal.null = d
        · have hv : v = d := by
            have h2 := hc.2
            rw [hq, hs] at h2
            simpa using h2
          refine ⟨pr, List.mem_cons_self pr rest, hq, ?_, ?_⟩
          · rw [hd, hv]
          · rw [hv]; exact hc.1
        · have hid : remove_default_step i pr = i := by
            simp only [remove_default_step, hd]
            rw [if_neg hc]
          rw [hid] at hn
          obtain ⟨pr2, hmem, hrest⟩ := ih i hs hn
          exact ⟨pr2, List.mem_cons_of_mem pr hmem, hrest⟩
    · have hstep : plookup q (remove_default_step i pr) = some v := by
        rw [remove_step_ne i pr hq]
        exact hs
      obtain ⟨pr2, hmem, hrest⟩ := ih _ hstep hn
      exact ⟨pr2, List.mem_cons_of_mem pr hmem, hrest⟩

/-- C10: `validate_remove_default` deletes a property only when its
subschema has a non-None default equal to the instance's value, and a
property whose schema default is null is never removed — while
`validate_fill_default` does insert a null default for a missing property,
so fill followed by remove is not the identity for null defaults. -/
theorem remove_defaults_null_asymmetry (props : Props) (inst : Obj) (p : Key)
    (hnd : (props.map Prod.fst).Nodup)
    (hmem : (p, some JVal.null) ∈ props)
    (hmiss : plookup p inst = none) :
    plookup p (validate_fill_default props inst) = some JVal.null ∧
    plookup p (validate_remove_default props (validate_fill_default props inst)) =
      some JVal.null ∧
    validate_remove_default props (validate_fill_default props inst) ≠ inst ∧
    (∀ (i : Obj) (q : Key) (v : JVal), plookup q i = some v →
      plookup q (validate_remove_default props i) = none →
      ∃ pr ∈ props, pr.1 = q ∧ pr.2 = some v ∧ v ≠ JVal.null) := by
  have h1 : plookup p (validate_fill_default props inst) = some JVal.null :=
    fill_inserts_missing props inst hnd hmem hmiss
  have h2 : plookup p
      (validate_remove_default props (validate_fill_default props inst)) =
      some JVal.null := by
    rw [remove_keeps_null_default props _ hnd hmem]
    exact h1
  refine ⟨h1, h2, ?_, ?_⟩
  · intro he
    rw [he, hmiss] at h2
    cases h2
  · intro i q v hs hn
    exact remove_only_nonnull_equal props i hs hn

/-- Witness for C10 at the concrete one-property schema with a null
default and an empty instance. -/
theorem remove_defaults_null_asymmetry_witness :
    plookup 0 (validate_fill_default [(0, some JVal.null)] []) = some JVal.null ∧
    plookup 0 (validate_remove_default [(0, some JVal.null)]
      (validate_fill_default [(0, some JVal.null)] [])) = some JVal.null ∧
    validate_remove_default [(0, some JVal.null)]
      (validate_fill_default [(0, some JVal.null)] []) ≠ [] := by
  have h := remove_defaults_null_asymmetry [(0, some JVal.null)] [] 0
    (by simp) (by simp) rfl
  exact ⟨h.1, h.2.1, h.2.2.1⟩

/-- The instances the patched `iter_errors` of `_create_validator`
(schema.py lines 199-238) distinguishes when it recurses: plain scalars
(and tagged leaves), dicts containing a `$ref` key or `Reference` objects
(validation short-circuits on them), dicts (recursion over the values) and
lists (recursion over the elements).  The tree lives in a heap indexed by
node identity (`id(instance)` in Python), so reference cycles are
representable: a container's child list may name any identity, including
its own. -/
inductive NodeContent
  | scalar
  | refNode
  | dictNode (children : List Nat)
  | listNode (children : List Nat)
  deriving DecidableEq

/-- The number of node identities of the heap not yet in the visited set. -/
def unseenCount (heap : List NodeContent) (seen : List Nat) : Nat :=
  ((Finset.range heap.length).filter (fun x => x ∉ seen)).card

/-- The recursion of `iter_errors` over a worklist of node identities with
an explicit step budget (`fuel`), returning the number of nodes visited or
`none` when the budget is exhausted: a node whose identity is already in
the per-walk visited set `_seen` is skipped outright; a `$ref` node or a
scalar yields no recursion; a dict or list recurses over its children with
the visited set extended by the node's own identity (`_seen | {id(instance)}`).
An identity outside the heap behaves as a scalar. -/
def walkL (fuel : Nat) (heap : List NodeContent) (ids : List Nat)
    (seen : List Nat) : Option Nat :=
  match fuel, ids with
  | _, [] => some 0
  | 0, _ :: _ => none
  | Nat.succ f, id :: rest =>
    let head : Option Nat :=
      if id ∈ seen then some 0
      else
        match heap.get? id with
        | none => some 1
        | some NodeContent.scalar => some 1
        | some NodeContent.refNode => some 1
        | some (NodeContent.dictNode cs) =>
          Option.map (· + 1) (walkL f heap cs (id :: seen))
        | some (NodeContent.listNode cs) =>
          Option.map (· + 1) (walkL f heap cs (id :: seen))
    match head, walkL (Nat.succ f) heap rest seen with
    | some a, some b => some (a + b)
    | _, _ => none
termination_by (fuel, ids.length)

theorem unseenCount_cons_lt {heap : List NodeContent} {seen : List Nat} {id : Nat}
    (hlt : id < heap.length) (hnot : id ∉ seen) :
    unseenCount heap (id :: seen) < unseenCount heap seen := by
  apply Finset.card_lt_card
  have hsub : (Finset.range heap.length).filter (fun x => x ∉ id :: seen) ⊆
      (Finset.range heap.length).filter (fun x => x ∉ seen) := by
    intro x hx
    simp only [Finset.mem_filter, List.mem_cons] at hx ⊢
    exact ⟨hx.1, fun hmem => hx.2 (Or.inr hmem)⟩
  refine (Finset.ssubset_iff_of_subset hsub).mpr ⟨id, ?_, ?_⟩
  · simp only [Finset.mem_filter, Finset.mem_range]
    exact ⟨hlt, hnot⟩
  · simp

theorem walkL_isSome (heap : List NodeContent) :
    ∀ fuel : Nat, ∀ (ids seen : List Nat), unseenCount heap seen < fuel →
      (walkL fuel heap ids seen).isSome = true := by
  intro fuel
  induction fuel using Nat.strong_induction_on with
  | _ fuel ihf =>
    intro ids seen hb
    induction ids with
    | nil =>
      cases fuel with
      | zero => rw [walkL]; rfl
      | succ f => rw [walkL]; rfl
    | cons id rest ihr =>
      cases fuel with
      | zero => omega
      | succ f =>
        rw [walkL]
        have hhead :
            (if id ∈ seen then some 0
             else
               match heap.get? id with
               | none => some 1
               | some NodeContent.scalar => some 1
               | some NodeContent.refNode => some 1
               | some (NodeContent.dictNode cs) =>
                 Option.map (· + 1) (walkL f heap cs (id :: seen))
               | some (NodeContent.listNode cs) =>
                 Option.map (· + 1) (walkL f heap cs (id :: seen))).isSome = true := by
          by_cases hid : id ∈ seen
          · rw [if_pos hid]; rfl
          · rw [if_neg hid]
            cases hget : heap.get? id with
            | none => rfl
            | some c =>
              have hlt : id < heap.length := by
                by_contra hge
                rw [List.get?_eq_none.mpr (Nat.le_of_not_lt hge)] at hget
                cases hget
              have hrec : unseenCount heap (id :: seen) < f := by
                have hdec := unseenCount_cons_lt hlt hid
                omega
              cases c with
              | scalar => rfl
              | refNode => rfl
              | dictNode cs =>
                obtain ⟨w, hw⟩ := Option.isSome_iff_exists.mp
                  (ihf f (Nat.lt_succ_self f) cs (id :: seen) hrec)
                show (Option.map (fun x => x + 1)
                  (walkL f heap cs (id :: seen))).isSome = true
                rw [hw]
                rfl
              | listNode cs =>
                obtain ⟨w, hw⟩ := Option.isSome_iff_exists.mp
                  (ihf f (Nat.lt_succ_self f) cs (id :: seen) hrec)
                show (Option.map (fun x => x + 1)
                  (walkL f heap cs (id :: seen))).isSome = true
                rw [hw]
                rfl
        have htail : (walkL (Nat.succ f) heap rest seen).isSome = true := ihr
        obtain ⟨a, ha⟩ := Option.isSome_iff_exists.mp hhead
        obtain ⟨b, hbb⟩ := Option.isSome_iff_exists.mp htail
        rw [ha, hbb]
        rfl

/-- C8: the validator's walk over a heap of node identities terminates on
every tree, cyclic or not — a step budget exceeding the number of not yet
visited identities always suffices — and a worklist entry whose identity is
already in the per-walk visited set is skipped: it contributes nothing and
the walk proceeds exactly as if it were absent. -/
theorem validator_cycle_walk_terminates (heap : List NodeContent)
    (fuel : Nat) (ids seen : List Nat) (id : Nat)
    (hfuel : unseenCount heap seen < fuel) (hid : id ∈ seen) :
    (walkL fuel heap ids seen).isSome = true ∧
    walkL fuel heap (id :: ids) seen = walkL fuel heap ids seen := by
  refine ⟨walkL_isSome heap fuel ids seen hfuel, ?_⟩
  cases fuel with
  | zero => omega
  | succ f =>
    rw [walkL, if_pos hid]
    cases htail : walkL (Nat.succ f) heap ids seen with
    | none =>
      exact absurd htail
        (Option.isSome_iff_ne_none.mp (walkL_isSome heap (Nat.succ f) ids seen hfuel))
    | some b => simp

/-- Witness for C8 at a concrete cyclic heap: node 0 is a dict whose only
child is node 0 itself. -/
theorem validator_cycle_walk_terminates_witness :
    unseenCount [NodeContent.dictNode [0]] [5] < 2 ∧
    (5 : Nat) ∈ [5] ∧
    ((walkL 2 [NodeContent.dictNode [0]] [0] [5]).isSome = true ∧
      walkL 2 [NodeContent.dictNode [0]] (5 :: [0]) [5] =
        walkL 2 [NodeContent.dictNode [0]] [0] [5]) :=
  ⟨by decide, by decide,
   validator_cycle_walk_terminates [NodeContent.dictNode [0]] 2 [0] [5] 5
     (by decide) (by decide)⟩
